import Mathlib

/-!
Shallow embedding of the pysplot streaming-plotter core
(`src/pysplot/config.py`, `src/pysplot/workers.py`, `src/pysplot/ui.py`).

Text is modelled as `List Char`, raw bytes as `List Nat`, floating-point
values as `ℚ` (the numeric claims under scrutiny concern order of
operations, filtering and exact formulas, not rounding).  Stateful Qt
objects become explicit state records with pure step functions.
-/

namespace PySplot

/-! ## config.py -/

/-- `BUFF_SIZE: int = 1000` from config.py. -/
def BUFF_SIZE : Nat := 1000

/-- `AUTOSCALE_SAMPLES: int = 10` from config.py. -/
def AUTOSCALE_SAMPLES : Nat := 10

/-- `SKIP_INITIAL_SAMPLES: int = 5` from config.py. -/
def SKIP_INITIAL_SAMPLES : Nat := 5

/-- `DELIMITER_OPTIONS: list[str] = ["\t", ",", " ", ";"]` from config.py.
All four options are single characters, so they are modelled as `Char`. -/
def DELIMITER_OPTIONS : List Char := ['\t', ',', ' ', ';']

/-- `DEFAULT_DELIMITER: str = "\t"` from config.py. -/
def DEFAULT_DELIMITER : Char := '\t'

/-! ## Python string primitives used by the workers -/

/-- The whitespace characters recognised by Python's `str.strip()`
(restricted to the ASCII range, which is all that reaches `strip` here):
space, tab, newline, carriage return, vertical tab, form feed. -/
def isPyWs (c : Char) : Bool :=
  c = ' ' || c = '\t' || c = '\n' || c = '\r' ||
  c = Char.ofNat 11 || c = Char.ofNat 12

/-- Python `str.strip()`: remove leading and trailing whitespace. -/
def pyStrip (s : List Char) : List Char :=
  ((s.dropWhile isPyWs).reverse.dropWhile isPyWs).reverse

/-- Python `str.split(sep)` for a one-character separator `d`: split at
every occurrence of `d`, keeping empty fields; `"".split(d) = [""]`. -/
def splitOnChar (d : Char) : List Char → List (List Char)
  | [] => [[]]
  | c :: rest =>
    let r := splitOnChar d rest
    if c = d then [] :: r
    else
      match r with
      | [] => [[c]]
      | l :: t => (c :: l) :: t

/-! ## Delimiter detection (workers.py, `detect_delimiter`) -/

/-- The `for delim in DELIMITER_OPTIONS: if delim in line: return delim`
loop body of `SerialWorker.detect_delimiter` / `StdinWorker.detect_delimiter`,
recursing over the remaining candidate list. -/
def detectDelimiterGo (line : List Char) : List Char → Char
  | [] => DEFAULT_DELIMITER
  | d :: rest => if line.contains d then d else detectDelimiterGo line rest

/-- `detect_delimiter(line)` from workers.py: first candidate of
`DELIMITER_OPTIONS` occurring in the line, else `DEFAULT_DELIMITER`. -/
def detect_delimiter (line : List Char) : Char :=
  detectDelimiterGo line DELIMITER_OPTIONS

example : detect_delimiter ['a', ',', 'b'] = ',' := by decide
example : detect_delimiter ['a', ' ', 'b', '\t'] = '\t' := by decide
example : detect_delimiter ['a', 'b'] = '\t' := by decide

/-! ## Numeric field conversion (Python `float(...)`)

The workers convert each field with `float(v.strip())`, catching
`ValueError` on failure.  We model the decimal literals that the data
stream carries (optional sign, digits, optional fractional part); any
other field is a parse failure (`none`), matching the `ValueError` path. -/

/-- Value of one decimal digit, `none` for a non-digit. -/
def digitVal (c : Char) : Option Nat :=
  if '0' ≤ c ∧ c ≤ '9' then some (c.toNat - 48) else none

/-- Read a (possibly empty) run of decimal digits as a natural number;
`none` as soon as a non-digit appears. -/
def decDigits? (s : List Char) : Option Nat :=
  s.foldl (fun acc c => acc.bind (fun n => (digitVal c).map (fun d => n * 10 + d)))
    (some 0)

/-- Unsigned decimal literal as a numerator/denominator pair:
`digits`, `digits.digits`, `digits.` or `.digits` (at least one digit
overall); anything else fails.  The value is `numerator / 10 ^ e`. -/
def decLiteral? (s : List Char) : Option (Nat × Nat) :=
  match splitOnChar '.' s with
  | [a] =>
    if a = [] then none
    else (decDigits? a).map (fun n => (n, 0))
  | [a, b] =>
    if a = [] ∧ b = [] then none
    else
      (decDigits? a).bind (fun ia =>
        (decDigits? b).map (fun fb =>
          (ia * 10 ^ b.length + fb, b.length)))
  | _ => none

/-- Model of Python `float(s)` on an already-stripped field: optional
sign followed by a decimal literal; `none` models `ValueError`. -/
def pyFloat? (s : List Char) : Option ℚ :=
  match s with
  | '+' :: t => (decLiteral? t).map (fun p => mkRat (Int.ofNat p.1) (10 ^ p.2))
  | '-' :: t => (decLiteral? t).map (fun p => mkRat (-(Int.ofNat p.1)) (10 ^ p.2))
  | t => (decLiteral? t).map (fun p => mkRat (Int.ofNat p.1) (10 ^ p.2))

example : pyFloat? ['1', '.', '5'] = some (mkRat 3 2) := by decide
example : pyFloat? ['-', '2'] = some (mkRat (-2) 1) := by decide
example : pyFloat? ['a', 'b', 'c'] = none := by decide
example : pyFloat? [] = none := by decide

/-! ## Record parsing (workers.py steady-state loops)

`np.array([float(v.strip()) for v in line.split(delim)])` inside
`try: ... except ValueError: pass` — the whole record is kept only when
every field converts. -/

/-- Parse one complete line into a sample: split on the delimiter, strip
each field, convert each with `float`; `none` when any field fails
(the record is then discarded by the worker loop). -/
def parseRecord (d : Char) (line : List Char) : Option (List ℚ) :=
  (splitOnChar d line).mapM (fun f => pyFloat? (pyStrip f))

/-- The delimiter actually used by `StdinWorker.run`:
`line.split(self.delimiter or DEFAULT_DELIMITER)` — the default tab when
no delimiter has been discovered yet (`None`). -/
def stdinEffectiveDelimiter (delim : Option Char) : Char :=
  delim.getD DEFAULT_DELIMITER

/-- Record parsing as performed by `StdinWorker.run` on each complete
non-empty line, with the worker's possibly-unset delimiter. -/
def stdinParseRecord (delim : Option Char) (line : List Char) : Option (List ℚ) :=
  parseRecord (stdinEffectiveDelimiter delim) line

example : stdinParseRecord none ['1', '\t', '2'] = some [1, 2] := by decide
example : stdinParseRecord (some ',') ['1', ',', '2', '.', '5'] = some [1, mkRat 5 2] := by
  decide

/-! ## Serial signal-count discovery (workers.py, `SerialWorker.detect_signals`)

Each loop iteration reads one line (`self.ser.readline().decode().strip()`).
We model the stream of reads as a list of `Option (List Char)`:
`none` is a read whose `decode()` raises (`UnicodeDecodeError`, caught and
counted as a failed attempt); `some s` is a successfully decoded line
before stripping.  A read past the end of the list models a serial
timeout, which yields the empty string.  `self.running` is taken to stay
`True` (the worker has not been stopped during discovery). -/

/-- One decoded-and-stripped read result, or `none` on decode failure. -/
abbrev SerialRead := Option (List Char)

/-- The `while self.running and attempts < max_attempts` loop of
`detect_signals`, with `fuel` = remaining attempts.  Returns the channel
count together with the delimiter stored in `self.delimiter`. -/
def detectSignalsGo : List SerialRead → Nat → Nat × Char
  | _, 0 => (1, DEFAULT_DELIMITER)
  | [], Nat.succ fuel => detectSignalsGo [] fuel
  | none :: rest, Nat.succ fuel => detectSignalsGo rest fuel
  | some s :: rest, Nat.succ fuel =>
    let line := pyStrip s
    if line = [] then detectSignalsGo rest fuel
    else ((splitOnChar (detect_delimiter line) line).length, detect_delimiter line)

/-- `SerialWorker.detect_signals` with its `max_attempts = 100` bound. -/
def detect_signals (reads : List SerialRead) : Nat × Char :=
  detectSignalsGo reads 100

example :
    detect_signals [some ['1', '\t', '2', '\n']] = (2, '\t') := by decide
example :
    detect_signals [none, some [' '], some ['a', ',', 'b', ',', 'c']] = (3, ',') := by
  decide

/-! ## Line framing (workers.py, `StdinWorker.run` buffer logic)

`while "\n" in self.buffer: line, self.buffer = self.buffer.split("\n", 1)`
— repeatedly peel the text before the first newline off the front of the
buffer.  `frameStep` performs the whole drain at once: it returns the
complete (newline-terminated) lines and the retained trailing text. -/

/-- Split a text buffer into its complete newline-terminated lines (in
order, without the newline) and the leftover text after the last
newline. -/
def frameStep : List Char → List (List Char) × List Char
  | [] => ([], [])
  | c :: rest =>
    if c = '\n' then ([] :: (frameStep rest).1, (frameStep rest).2)
    else
      match frameStep rest with
      | ([], r) => ([], c :: r)
      | (l :: ls, r) => ((c :: l) :: ls, r)

example : frameStep ['a', '\n', 'b', '\n', 'c'] = ([['a'], ['b']], ['c']) := by decide
example : frameStep ['a', 'b'] = ([], ['a', 'b']) := by decide

/-- Feed one decoded chunk of text into the framer: append it to the
retained buffer, emit all complete lines, keep the new leftover.
The state is (lines emitted so far, retained buffer). -/
def feedChunk (st : List (List Char) × List Char) (chunk : List Char) :
    List (List Char) × List Char :=
  (st.1 ++ (frameStep (st.2 ++ chunk)).1, (frameStep (st.2 ++ chunk)).2)

/-- Feed a list of decoded chunks one after another, starting from an
empty framer. -/
def feedChunks (chunks : List (List Char)) : List (List Char) × List Char :=
  chunks.foldl feedChunk ([], [])

/-- The per-line processing of `StdinWorker.run`: strip the line, drop it
when empty, otherwise parse it into a sample (`none` = record skipped by
the `except (ValueError, IndexError)` handler). -/
def stdinProcessLine (delim : Option Char) (line : List Char) :
    Option (Option (List ℚ)) :=
  let l := pyStrip line
  if l = [] then none else some (stdinParseRecord delim l)

/-- The samples appended to the queue for a list of emitted lines: the
non-empty lines' successful parses, in order. -/
def stdinRecords (delim : Option Char) (lines : List (List Char)) : List (List ℚ) :=
  lines.foldr
    (fun line acc =>
      match stdinProcessLine delim line with
      | some (some v) => v :: acc
      | _ => acc)
    []

/-! ## Byte-level input (workers.py, `StdinWorker.run` outer loop)

Each pass of the outer loop drains all immediately available bytes into
`raw_data` and decodes them as one unit:
`self.buffer += raw_data.decode("utf-8", errors="ignore")`.
Decoding is therefore applied per batch of bytes, not to the stream as a
whole.  `utf8DecodeIgnore` models CPython's
`bytes.decode("utf-8", errors="ignore")`: well-formed sequences decode to
their code point, and the bytes of any invalid or incomplete sequence are
skipped. -/

/-- Is `b` a UTF-8 continuation byte (`0x80–0xBF`)? -/
def isCont (b : Nat) : Bool := 0x80 ≤ b && b ≤ 0xBF

/-- Worker for `utf8DecodeIgnore`.  The fuel argument (initially the list
length) only forces termination: every step consumes at least one byte
and spends exactly one unit of fuel, so fuel never runs out early. -/
def utf8Go : Nat → List Nat → List Char
  | 0, _ => []
  | _, [] => []
  | Nat.succ fuel, b :: rest =>
    if b ≤ 0x7F then Char.ofNat b :: utf8Go fuel rest
    else if 0xC2 ≤ b && b ≤ 0xDF then
      match rest with
      | [] => []
      | b1 :: rest1 =>
        if isCont b1 then
          Char.ofNat ((b - 0xC0) * 0x40 + (b1 - 0x80)) :: utf8Go fuel rest1
        else utf8Go fuel rest
    else if 0xE0 ≤ b && b ≤ 0xEF then
      match rest with
      | [] => []
      | b1 :: rest1 =>
        if (if b = 0xE0 then 0xA0 ≤ b1 && b1 ≤ 0xBF
            else if b = 0xED then 0x80 ≤ b1 && b1 ≤ 0x9F
            else isCont b1) then
          match rest1 with
          | [] => []
          | b2 :: rest2 =>
            if isCont b2 then
              Char.ofNat ((b - 0xE0) * 0x1000 + (b1 - 0x80) * 0x40 + (b2 - 0x80)) ::
                utf8Go fuel rest2
            else utf8Go fuel rest1
        else utf8Go fuel rest
    else if 0xF0 ≤ b && b ≤ 0xF4 then
      match rest with
      | [] => []
      | b1 :: rest1 =>
        if (if b = 0xF0 then 0x90 ≤ b1 && b1 ≤ 0xBF
            else if b = 0xF4 then 0x80 ≤ b1 && b1 ≤ 0x8F
            else isCont b1) then
          match rest1 with
          | [] => []
          | b2 :: rest2 =>
            if isCont b2 then
              match rest2 with
              | [] => []
              | b3 :: rest3 =>
                if isCont b3 then
                  Char.ofNat ((b - 0xF0) * 0x40000 + (b1 - 0x80) * 0x1000 +
                      (b2 - 0x80) * 0x40 + (b3 - 0x80)) ::
                    utf8Go fuel rest3
                else utf8Go fuel rest2
            else utf8Go fuel rest1
        else utf8Go fuel rest
    else utf8Go fuel rest

/-- Model of CPython `bytes.decode("utf-8", errors="ignore")`.
On an invalid start byte, that byte is skipped; on a start byte whose
continuation bytes are invalid or missing, the consumed prefix is skipped
and decoding resumes at the offending byte. -/
def utf8DecodeIgnore (l : List Nat) : List Char :=
  utf8Go l.length l

example : utf8DecodeIgnore [0x31, 0x0A] = ['1', '\n'] := by decide
example : utf8DecodeIgnore [0xC3, 0xA9] = [Char.ofNat 0xE9] := by decide
example : utf8DecodeIgnore [0xC3] = [] := by decide
example : utf8DecodeIgnore [0xA9, 0x31] = ['1'] := by decide

/-- Feed one batch of raw bytes through the outer loop of
`StdinWorker.run`: decode the batch with `errors="ignore"`, then run the
framer. -/
def feedBytes (st : List (List Char) × List Char) (batch : List Nat) :
    List (List Char) × List Char :=
  feedChunk st (utf8DecodeIgnore batch)

/-- Feed a list of byte batches one after another, starting from an
empty framer, returning the emitted lines and the retained buffer. -/
def feedByteBatches (batches : List (List Nat)) : List (List Char) × List Char :=
  batches.foldl feedBytes ([], [])

/-! ## Render-tick consumer state (ui.py, `StackedPlotsWindow`)

The fields of `StackedPlotsWindow` that the data path touches.  Pure
display objects (plots, curves, window chrome) are not part of the data
model; `apply_autoscale`'s axis-bound computation is modelled separately
below as a function of one channel's buffer. -/

structure PlotState where
  numSignals : Nat
  buffSize : Nat
  frozen : Bool
  sampleCount : Nat
  autoscaleSamples : List (List ℚ)
  autoscaleApplied : Bool
  autoscaleEnabled : Bool
  sampleBuffers : List (List ℚ)
  deriving DecidableEq

/-- `StackedPlotsWindow.__init__(num_signals, buff_size)`: fresh session,
not frozen, zero counters, `np.zeros((num_signals, buff_size))` buffers. -/
def initState (numSignals buffSize : Nat) : PlotState :=
  { numSignals := numSignals
    buffSize := buffSize
    frozen := false
    sampleCount := 0
    autoscaleSamples := []
    autoscaleApplied := false
    autoscaleEnabled := true
    sampleBuffers := List.replicate numSignals (List.replicate buffSize 0) }

/-- `StackedPlotsWindow.update_data(values)` from ui.py: guard on
`not self.frozen and len(values) == self.num_signals`; inside the guard,
advance the autoscale warm-up while `autoscale_applied` is still false,
then commit the sample with
`np.column_stack([values, self.sample_buffers[:, :-1]])`
(each channel row becomes `values[i]` followed by the row minus its last
entry). -/
def update_data (s : PlotState) (values : List ℚ) : PlotState :=
  if s.frozen = false ∧ values.length = s.numSignals then
    let s1 :=
      if s.autoscaleApplied = false then
        let sc := s.sampleCount + 1
        let coll :=
          if SKIP_INITIAL_SAMPLES < sc then s.autoscaleSamples ++ [values]
          else s.autoscaleSamples
        let app := if coll.length = AUTOSCALE_SAMPLES then true else s.autoscaleApplied
        { s with sampleCount := sc, autoscaleSamples := coll, autoscaleApplied := app }
      else s
    { s1 with
        sampleBuffers :=
          List.zipWith (fun v row => v :: row.dropLast) values s1.sampleBuffers }
  else s

/-- Commit a whole list of samples in arrival order. -/
def updateRun (s : PlotState) (samples : List (List ℚ)) : PlotState :=
  samples.foldl update_data s

/-! ## Autoscale bounds (ui.py, `apply_autoscale`)

Per channel: `valid_data = y_data[y_data != 0] if np.any(y_data != 0)
else y_data`; when non-empty, bounds are `min - pad` and `max + pad` with
`pad = 0.1 * range` for a positive range, else `0.5`. -/

/-- `np.min` on a non-empty list (the empty case is unreachable under the
`len(valid_data) > 0` guard). -/
def npMin : List ℚ → ℚ
  | [] => 0
  | x :: xs => xs.foldl min x

/-- `np.max` on a non-empty list. -/
def npMax : List ℚ → ℚ
  | [] => 0
  | x :: xs => xs.foldl max x

/-- The `valid_data` selection of `apply_autoscale`: entries that are not
exactly zero, unless every entry is zero, in which case the raw buffer. -/
def validData (yData : List ℚ) : List ℚ :=
  if yData.any (fun x => x ≠ 0) then yData.filter (fun x => x ≠ 0) else yData

/-- The `(min - pad, max + pad)` bounds `apply_autoscale` passes to
`plot.setYRange` for one channel, or `none` when `valid_data` is empty
and no call happens. -/
def applyAutoscaleBounds (yData : List ℚ) : Option (ℚ × ℚ) :=
  let valid := validData yData
  if valid.length > 0 then
    let yMin := npMin valid
    let yMax := npMax valid
    let yRange := yMax - yMin
    let yPadding := if yRange > 0 then yRange * (1 / 10) else 1 / 2
    some (yMin - yPadding, yMax + yPadding)
  else none

/-! ## CSV export (ui.py, `on_export_csv`)

`np.savetxt(filename, self.sample_buffers.T, delimiter=",",
header=",".join(f"Signal {i + 1}" for i in range(self.num_signals)),
comments="")`.  We model the numeric payload (the transposed buffer
matrix: one CSV row per buffer index, one column per channel) and the
header line (the `comments` prefix, here empty, followed by the joined
column names). -/

/-- Numpy `.T` on a rectangular matrix given as a list of equal-length
rows: entry `(j, i)` of the result is entry `(i, j)` of the argument. -/
def npTranspose (m : List (List ℚ)) : List (List ℚ) :=
  match m with
  | [] => []
  | r :: _ => (List.range r.length).map (fun j => m.map (fun row => row.getD j 0))

/-- The comment prefix `np.savetxt` puts in front of the header;
`on_export_csv` passes `comments=""`. -/
def exportComments : String := ""

/-- The header line written by `on_export_csv`: the `comments` prefix
(empty) followed by `",".join(f"Signal {i + 1}" for i in range(n))`. -/
def exportHeaderLine (n : Nat) : String :=
  exportComments ++
    String.intercalate "," ((List.range n).map (fun i => "Signal " ++ toString (i + 1)))

/-- `on_export_csv`: the header line and the exported data rows
(row `j` of `sample_buffers.T`, i.e. one row per buffer index, newest
buffer index first, one column per channel). -/
def on_export_csv (s : PlotState) : String × List (List ℚ) :=
  (exportHeaderLine s.numSignals, npTranspose s.sampleBuffers)

example :
    on_export_csv (update_data (update_data (initState 1 3) [1]) [2]) =
      ("Signal 1", [[2], [1], [0]]) := by decide

/-! # Helper lemmas -/

/-- A read that `detect_signals` cannot accept: a decode failure or a
line that strips to empty. -/
def invalidRead : SerialRead → Bool
  | none => true
  | some s => decide (pyStrip s = [])

/-- The result of the discovery loop depends only on the first `fuel`
reads: each loop iteration consumes at most one read. -/
theorem detectSignalsGo_take :
    ∀ (fuel : Nat) (reads : List SerialRead),
      detectSignalsGo reads fuel = detectSignalsGo (reads.take fuel) fuel := by
  intro fuel
  induction fuel with
  | zero => intro reads; simp [detectSignalsGo]
  | succ fuel ih =>
    intro reads
    match reads with
    | [] => rfl
    | none :: rest => simpa [detectSignalsGo] using ih rest
    | some s :: rest =>
      by_cases h : pyStrip s = [] <;> simp [detectSignalsGo, h]
      exact ih rest

/-- If every read the loop can reach is invalid, discovery falls back to
one signal and the default delimiter. -/
theorem detectSignalsGo_invalid :
    ∀ (fuel : Nat) (reads : List SerialRead),
      (∀ r ∈ reads.take fuel, invalidRead r = true) →
      detectSignalsGo reads fuel = (1, DEFAULT_DELIMITER) := by
  intro fuel
  induction fuel with
  | zero => intro reads _; simp [detectSignalsGo]
  | succ fuel ih =>
    intro reads h
    match reads with
    | [] =>
      have : detectSignalsGo ([] : List SerialRead) fuel = (1, DEFAULT_DELIMITER) :=
        ih [] (by intro r hr; simp at hr)
      simpa [detectSignalsGo] using this
    | none :: rest =>
      have := ih rest (by
        intro r hr
        exact h r (by simp [List.take_succ_cons]; exact Or.inr hr))
      simpa [detectSignalsGo] using this
    | some s :: rest =>
      have hs : pyStrip s = [] := by
        have := h (some s) (by simp [List.take_succ_cons])
        simpa [invalidRead] using this
      have := ih rest (by
        intro r hr
        exact h r (by simp [List.take_succ_cons]; exact Or.inr hr))
      simpa [detectSignalsGo, hs] using this

/-- Committing one more sample at the end of a run. -/
theorem updateRun_concat (s : PlotState) (vs : List (List ℚ)) (v : List ℚ) :
    updateRun s (vs ++ [v]) = update_data (updateRun s vs) v := by
  simp [updateRun, List.foldl_append]

/-- Invariant of the warm-up machinery along any run of accepted samples
from a fresh session: the sample counter saturates at
`SKIP_INITIAL_SAMPLES + AUTOSCALE_SAMPLES`, the collected window at
`AUTOSCALE_SAMPLES`, and `autoscale_applied` holds exactly from the
`(SKIP_INITIAL_SAMPLES + AUTOSCALE_SAMPLES)`-th accepted sample on. -/
theorem updateRun_init_invariant (n C : Nat) (vs : List (List ℚ))
    (h : ∀ v ∈ vs, v.length = n) :
    (updateRun (initState n C) vs).frozen = false ∧
      (updateRun (initState n C) vs).numSignals = n ∧
      (updateRun (initState n C) vs).buffSize = C ∧
      (updateRun (initState n C) vs).sampleCount =
        min vs.length (SKIP_INITIAL_SAMPLES + AUTOSCALE_SAMPLES) ∧
      (updateRun (initState n C) vs).autoscaleSamples.length =
        min (vs.length - SKIP_INITIAL_SAMPLES) AUTOSCALE_SAMPLES ∧
      ((updateRun (initState n C) vs).autoscaleApplied = true ↔
        SKIP_INITIAL_SAMPLES + AUTOSCALE_SAMPLES ≤ vs.length) := by
  induction vs using List.reverseRecOn with
  | nil => simp [updateRun, initState, SKIP_INITIAL_SAMPLES, AUTOSCALE_SAMPLES]
  | append_singleton ys v ih =>
    have hys : ∀ w ∈ ys, w.length = n := fun w hw => h w (by simp [hw])
    have hv : v.length = n := h v (by simp)
    obtain ⟨hfr, hns, hbs, hsc, hcl, hap⟩ := ih hys
    rw [updateRun_concat]
    set s := updateRun (initState n C) ys with hs
    simp only [SKIP_INITIAL_SAMPLES, AUTOSCALE_SAMPLES] at hsc hcl hap ⊢
    by_cases happ : s.autoscaleApplied = true
    · have hm := hap.mp happ
      refine ⟨?_, ?_, ?_, ?_, ?_, ?_⟩
      all_goals simp [update_data, hfr, hns, hbs, hv, happ, SKIP_INITIAL_SAMPLES, AUTOSCALE_SAMPLES]
      all_goals omega
    · have hm : ¬ 5 + 10 ≤ ys.length := fun hle => happ (hap.mpr hle)
      have happ' : s.autoscaleApplied = false := by
        cases hb : s.autoscaleApplied
        · rfl
        · exact absurd hb happ
      refine ⟨?_, ?_, ?_, ?_, ?_, ?_⟩
      all_goals simp [update_data, hfr, hns, hbs, hv, happ', SKIP_INITIAL_SAMPLES, AUTOSCALE_SAMPLES]
      all_goals try omega
      all_goals split_ifs
      all_goals try simp [List.length_append]
      all_goals omega

/-! # Claim theorems -/

/-- **C8.** `detect_delimiter` returns the first candidate of the ordered
list tab, comma, space, semicolon that occurs in the line, and the
default tab when none occurs.  Determinism is immediate: the result is a
pure function of the line. -/
theorem detect_delimiter_first_candidate (line : List Char) :
    detect_delimiter line =
      (if line.contains '\t' then '\t'
       else if line.contains ',' then ','
       else if line.contains ' ' then ' '
       else if line.contains ';' then ';'
       else DEFAULT_DELIMITER) := by
  simp only [detect_delimiter, DELIMITER_OPTIONS, detectDelimiterGo]

/-- **C7.** A frozen session or a sample of the wrong length leaves the
whole consumer state — ring buffers, autoscale counter, collected window
and `autoscale_applied` flag — unchanged, and `update_data` returns
normally. -/
theorem update_data_discard_frame (s : PlotState) (v : List ℚ)
    (h : s.frozen = true ∨ v.length ≠ s.numSignals) :
    update_data s v = s := by
  rcases h with h | h <;> simp [update_data, h]

/-- Witness for C7: a frozen state and a mismatched sample, each left
exactly unchanged. -/
theorem update_data_discard_frame_witness :
    update_data { initState 2 5 with frozen := true } [1, 1] =
        { initState 2 5 with frozen := true } ∧
      update_data (initState 2 5) [1, 1, 1] = initState 2 5 :=
  ⟨update_data_discard_frame _ _ (Or.inl rfl),
    update_data_discard_frame _ _ (Or.inr (by decide))⟩

/-- **C10.** `StdinWorker.run` parses every complete line even when no
delimiter was ever discovered: with `self.delimiter` unset (`None`),
`line.split(self.delimiter or DEFAULT_DELIMITER)` splits on the default
tab, so parsing is total in the delimiter and, e.g., a tab-separated
numeric line parses to its values. -/
theorem stdin_parse_total_in_delimiter :
    (∀ line : List Char,
        stdinParseRecord none line = stdinParseRecord (some DEFAULT_DELIMITER) line) ∧
      stdinParseRecord none ['1', '\t', '2'] = some [1, 2] :=
  ⟨fun _ => rfl, by decide⟩

/-- **C9.** Serial discovery never looks past its 100-attempt bound
(the result depends only on the first 100 reads), and when every read in
that window is invalid — decode failure or empty line — it terminates
with channel count 1 and the default tab delimiter, with no error
raised. -/
theorem serial_discovery_bounded_fallback :
    (∀ reads : List SerialRead, detect_signals reads = detect_signals (reads.take 100)) ∧
      ∀ reads : List SerialRead,
        (∀ r ∈ reads.take 100, invalidRead r = true) →
        detect_signals reads = (1, DEFAULT_DELIMITER) :=
  ⟨fun reads => by
      simpa [detect_signals, List.take_take] using detectSignalsGo_take 100 reads,
    fun reads h => detectSignalsGo_invalid 100 reads h⟩

/-- Witness for C9: 150 consecutive decode failures exhaust the bound and
fall back to one signal with the tab delimiter. -/
theorem serial_discovery_bounded_fallback_witness :
    detect_signals (List.replicate 150 (none : SerialRead)) = (1, DEFAULT_DELIMITER) :=
  serial_discovery_bounded_fallback.2 _ (by decide)

/-- **C1 counterexample.** With the non-numeric record `"abc\tdef"` first
in the stream, serial discovery does *not* skip it: it returns that
line's field count 2 (with delimiter tab), not the field count 3 of the
following record `"1\t2\t3"`, the first one that parses as numbers. -/
theorem serial_detect_nonnumeric_cex :
    detect_signals
        [some ['a', 'b', 'c', '\t', 'd', 'e', 'f'], some ['1', '\t', '2', '\t', '3']] =
        (2, '\t') ∧
      parseRecord '\t' ['a', 'b', 'c', '\t', 'd', 'e', 'f'] = none ∧
      parseRecord '\t' ['1', '\t', '2', '\t', '3'] = some [1, 2, 3] ∧
      (detect_signals
          [some ['a', 'b', 'c', '\t', 'd', 'e', 'f'],
            some ['1', '\t', '2', '\t', '3']]).1 ≠
        (splitOnChar '\t' ['1', '\t', '2', '\t', '3']).length := by
  decide

/-- **C1 (amended).** Serial discovery performs no numeric conversion:
the first read whose decoded line strips to something non-empty is
accepted outright, and the returned channel count is that line's field
count under the detected delimiter (only decode failures and empty lines
cause another attempt; the skip-non-numeric behaviour belongs to the
stdin variant's discovery). -/
theorem serial_detect_first_nonempty (s : List Char) (reads : List SerialRead)
    (h : pyStrip s ≠ []) :
    detect_signals (some s :: reads) =
      ((splitOnChar (detect_delimiter (pyStrip s)) (pyStrip s)).length,
        detect_delimiter (pyStrip s)) := by
  simp [detect_signals, detectSignalsGo, h]

/-- Witness for amended C1: the non-numeric line `"abc\tdef"` is accepted
at once with field count 2. -/
theorem serial_detect_first_nonempty_witness :
    pyStrip ['a', 'b', 'c', '\t', 'd', 'e', 'f'] ≠ [] ∧
      detect_signals [some ['a', 'b', 'c', '\t', 'd', 'e', 'f']] =
        ((splitOnChar (detect_delimiter (pyStrip ['a', 'b', 'c', '\t', 'd', 'e', 'f']))
            (pyStrip ['a', 'b', 'c', '\t', 'd', 'e', 'f'])).length,
          detect_delimiter (pyStrip ['a', 'b', 'c', '\t', 'd', 'e', 'f'])) :=
  ⟨by decide, serial_detect_first_nonempty _ [] (by decide)⟩

/-- **C3.** Along any run of accepted samples from a fresh session, the
`autoscale_applied` flag holds exactly when at least
`SKIP_INITIAL_SAMPLES + AUTOSCALE_SAMPLES` (= 15) samples have been
committed — so it is never set earlier, is set exactly at the 15th
accepted sample, and (second conjunct) once true it survives every
further `update_data` call: the phase transition is monotonic. -/
theorem autoscale_commit_monotone :
    (∀ (n C : Nat) (vs : List (List ℚ)), (∀ v ∈ vs, v.length = n) →
        ((updateRun (initState n C) vs).autoscaleApplied = true ↔
          SKIP_INITIAL_SAMPLES + AUTOSCALE_SAMPLES ≤ vs.length)) ∧
      ∀ (s : PlotState) (v : List ℚ), s.autoscaleApplied = true →
        (update_data s v).autoscaleApplied = true := by
  constructor
  · intro n C vs h
    exact (updateRun_init_invariant n C vs h).2.2.2.2.2
  · intro s v h
    unfold update_data
    split_ifs with h1 h2
    · exact absurd h2 (by simp [h])
    · simpa using h
    · exact h

/-- Witness for C3: after exactly 15 accepted samples the flag is set;
after 14 it is not; and one further sample keeps it set. -/
theorem autoscale_commit_monotone_witness :
    ((updateRun (initState 1 20) (List.replicate 15 [(1 : ℚ)])).autoscaleApplied = true ↔
        SKIP_INITIAL_SAMPLES + AUTOSCALE_SAMPLES ≤ (List.replicate 15 [(1 : ℚ)]).length) ∧
      ((updateRun (initState 1 20) (List.replicate 14 [(1 : ℚ)])).autoscaleApplied = true ↔
        SKIP_INITIAL_SAMPLES + AUTOSCALE_SAMPLES ≤ (List.replicate 14 [(1 : ℚ)]).length) ∧
      (update_data (updateRun (initState 1 20) (List.replicate 15 [(1 : ℚ)])) [2]).autoscaleApplied =
        true :=
  ⟨autoscale_commit_monotone.1 1 20 _ (by decide),
    autoscale_commit_monotone.1 1 20 _ (by decide),
    autoscale_commit_monotone.2 _ [2]
      ((autoscale_commit_monotone.1 1 20 _ (by decide)).mpr (by decide))⟩

/-- Dropping the last entry of a row that ends in at least one padding
zero just shortens the padding. -/
theorem dropLast_append_replicate (a : List ℚ) (k : Nat) (x : ℚ) :
    (a ++ List.replicate (k + 1) x).dropLast = a ++ List.replicate k x := by
  rw [List.dropLast_append_of_ne_nil _ (by simp)]
  simp [List.replicate_succ, List.dropLast_concat]

/-- Channel `i`'s buffer row after committing `vs` into an empty ring of
capacity `C`: the samples' `i`-th entries newest-first, then the
untouched zero padding. -/
def pushedRow (C : Nat) (vs : List (List ℚ)) (i : Nat) : List ℚ :=
  vs.reverse.map (fun v => v.getD i 0) ++ List.replicate (C - vs.length) 0

/-- A commit only rotates the ring: each channel row gains the new value
in front and loses its last entry. -/
theorem update_data_sampleBuffers (s : PlotState) (v : List ℚ)
    (hfr : s.frozen = false) (hv : v.length = s.numSignals) :
    (update_data s v).sampleBuffers =
      List.zipWith (fun x row => x :: row.dropLast) v s.sampleBuffers := by
  unfold update_data
  split_ifs with h1 h2 <;> simp_all

/-- Ring-buffer contents after any run of accepted samples from a fresh
session, provided the ring is big enough to hold them all. -/
theorem updateRun_sampleBuffers (n C : Nat) (vs : List (List ℚ))
    (h1 : ∀ v ∈ vs, v.length = n) (h2 : vs.length ≤ C) :
    (updateRun (initState n C) vs).sampleBuffers =
      (List.range n).map (pushedRow C vs) := by
  induction vs using List.reverseRecOn with
  | nil =>
    apply List.ext_getElem
    · simp [updateRun, initState]
    · intro i hiL hiR
      simp [updateRun, initState, pushedRow]
  | append_singleton ys v ih =>
    have hys : ∀ w ∈ ys, w.length = n := fun w hw => h1 w (by simp [hw])
    have hv : v.length = n := h1 v (by simp)
    have hysC : ys.length < C := by
      have := h2
      simp only [List.length_append, List.length_singleton] at this
      omega
    obtain ⟨hfr, hns, _, _, _, _⟩ := updateRun_init_invariant n C ys hys
    rw [updateRun_concat,
      update_data_sampleBuffers _ _ hfr (by rw [hns, hv]),
      ih hys (le_of_lt hysC)]
    apply List.ext_getElem
    · simp [hv]
    · intro i hiL hiR
      have hi : i < n := by simpa using hiR
      have hvi : i < v.length := by omega
      simp only [List.getElem_zipWith, List.getElem_map, List.getElem_range]
      unfold pushedRow
      have hrep : C - ys.length = (C - (ys.length + 1)) + 1 := by omega
      have hL : (List.map (fun w : List ℚ => w.getD i 0) ys.reverse ++
            List.replicate (C - ys.length) 0).dropLast =
          List.map (fun w : List ℚ => w.getD i 0) ys.reverse ++
            List.replicate (C - (ys.length + 1)) 0 := by
        rw [hrep, dropLast_append_replicate]
      rw [hL]
      simp [List.getD_eq_getElem?_getD, List.getElem?_eq_getElem hvi]

/-- **C4.** Committing accepted samples `v1..vk` (in that order) into a
fresh zero-filled ring of capacity `C ≥ k` leaves each channel `i` with
the row `[vk[i], ..., v1[i], 0, ..., 0]` — newest at index 0, zero
padding behind — and every channel row has length exactly `buff_size`
before and after every commit of the run. -/
theorem ring_buffer_rotate_evict (n C : Nat) (vs : List (List ℚ))
    (h1 : ∀ v ∈ vs, v.length = n) (h2 : vs.length ≤ C) :
    (updateRun (initState n C) vs).sampleBuffers =
      (List.range n).map
        (fun i =>
          vs.reverse.map (fun v => v.getD i 0) ++ List.replicate (C - vs.length) 0) ∧
      ∀ k, ∀ row ∈ (updateRun (initState n C) (vs.take k)).sampleBuffers,
        row.length = C := by
  constructor
  · exact updateRun_sampleBuffers n C vs h1 h2
  · intro k row hrow
    have htk1 : ∀ v ∈ vs.take k, v.length = n := fun v hv =>
      h1 v (List.mem_of_mem_take hv)
    have htk2 : (vs.take k).length ≤ C := by
      rw [List.length_take]
      omega
    rw [updateRun_sampleBuffers n C (vs.take k) htk1 htk2] at hrow
    obtain ⟨i, hi, rfl⟩ := List.mem_map.mp hrow
    unfold pushedRow
    simp only [List.length_append, List.length_map, List.length_reverse,
      List.length_replicate]
    omega

/-- Witness for C4: two one-channel samples in a capacity-3 ring give the
row `[2, 1, 0]`, and every intermediate state keeps row length 3. -/
theorem ring_buffer_rotate_evict_witness :
    (updateRun (initState 1 3) [[(1 : ℚ)], [2]]).sampleBuffers =
        (List.range 1).map
          (fun i =>
            ([[(1 : ℚ)], [2]] : List (List ℚ)).reverse.map (fun v => v.getD i 0) ++
              List.replicate (3 - ([[(1 : ℚ)], [2]] : List (List ℚ)).length) 0) ∧
      ∀ k, ∀ row ∈ (updateRun (initState 1 3) ([[(1 : ℚ)], [2]].take k)).sampleBuffers,
        row.length = 3 :=
  ring_buffer_rotate_evict 1 3 [[1], [2]] (by decide) (by decide)

/-- `getD` on an all-zero padding row is always zero. -/
theorem getD_replicate_zero (k m : Nat) : (List.replicate k (0 : ℚ)).getD m 0 = 0 := by
  rw [List.getD_eq_getElem?_getD]
  rcases Nat.lt_or_ge m k with h | h
  · simp [List.getElem?_replicate, h]
  · simp [List.getElem?_replicate, Nat.not_lt.mpr h]

/-- Entry `j` of channel `i`'s buffer row: the `i`-th entry of the
`j`-th most recent sample while `j` is within the committed samples,
zero in the padding. -/
theorem pushedRow_getD (C : Nat) (vs : List (List ℚ)) (i j : Nat) :
    (pushedRow C vs i).getD j 0 =
      if h : j < vs.length then (vs.reverse.get ⟨j, by simpa using h⟩).getD i 0
      else 0 := by
  unfold pushedRow
  by_cases hj : j < vs.length
  · rw [List.getD_append _ _ _ _ (by simpa using hj), dif_pos hj]
    rw [List.getD_eq_getElem?_getD,
      List.getElem?_eq_getElem (by simpa using hj)]
    simp
  · rw [List.getD_append_right _ _ _ _ (by simpa using Nat.not_lt.mp hj), dif_neg hj]
    exact getD_replicate_zero _ _

/-- Unfolding `npTranspose` on a non-empty matrix. -/
theorem npTranspose_cons (r : List ℚ) (t : List (List ℚ)) :
    npTranspose (r :: t) =
      (List.range r.length).map (fun j => (r :: t).map (fun row => row.getD j 0)) := rfl

/-- Transposing the ring-buffer matrix left by a run of accepted samples:
one row per buffer index — the committed samples newest-first, then
all-zero rows for the untouched padding. -/
theorem npTranspose_pushed (n C : Nat) (vs : List (List ℚ))
    (hn : 1 ≤ n) (h1 : ∀ v ∈ vs, v.length = n) (h2 : vs.length ≤ C) :
    npTranspose ((List.range n).map (pushedRow C vs)) =
      vs.reverse ++ List.replicate (C - vs.length) (List.replicate n 0) := by
  obtain ⟨m, rfl⟩ : ∃ m, n = m + 1 := ⟨n - 1, by omega⟩
  have hshape : (List.range (m + 1)).map (pushedRow C vs) =
      pushedRow C vs 0 ::
        List.map (pushedRow C vs) (List.map Nat.succ (List.range m)) := by
    rw [List.range_succ_eq_map, List.map_cons]
  have hr0 : (pushedRow C vs 0).length = C := by
    unfold pushedRow
    simp
    omega
  rw [hshape, npTranspose_cons, ← hshape, hr0]
  apply List.ext_getElem
  · simp
    omega
  · intro j hjL hjR
    have hjC : j < C := by simpa using hjL
    simp only [List.getElem_map, List.getElem_range]
    by_cases hj : j < vs.length
    · have hjr : j < vs.reverse.length := by simpa using hj
      rw [List.getElem_append_left (by simpa using hj)]
      apply List.ext_getElem
      · have hmem : vs.reverse[j] ∈ vs := by
          have hmr : vs.reverse[j] ∈ vs.reverse := List.getElem_mem _
          exact List.mem_reverse.mp hmr
        simp only [List.length_map, List.length_range]
        exact (h1 _ hmem).symm
      · intro i hiL hiR
        simp only [List.getElem_map, List.getElem_range]
        rw [pushedRow_getD, dif_pos hj]
        simp only [List.get_eq_getElem]
        rw [List.getD_eq_getElem?_getD, List.getElem?_eq_getElem hiR]
        simp
    · rw [List.getElem_append_right (by simpa using Nat.not_lt.mp hj)]
      rw [List.getElem_replicate]
      apply List.ext_getElem
      · simp
      · intro i hiL hiR
        simp only [List.getElem_map, List.getElem_range, List.getElem_replicate]
        rw [pushedRow_getD, dif_neg hj]

/-- **C2 counterexample.** After committing `[1]` then `[2]` into a
one-channel ring of capacity 3, the exported data rows are
`[[2], [1], [0]]` — the *newest* sample first — not oldest-to-newest
(neither `[[0], [1], [2]]` nor `[[1], [2], [0]]`). -/
theorem csv_export_order_cex :
    (on_export_csv (update_data (update_data (initState 1 3) [1]) [2])).2 =
        [[2], [1], [0]] ∧
      (on_export_csv (update_data (update_data (initState 1 3) [1]) [2])).2 ≠
        [[0], [1], [2]] ∧
      (on_export_csv (update_data (update_data (initState 1 3) [1]) [2])).2 ≠
        [[1], [2], [0]] := by
  decide

/-- **C2 (amended).** Exporting the ring after any run of accepted
samples produces the header line `"Signal 1,...,Signal N"` with no
comment prefix, and one CSV row per buffer index with one column per
channel in discovery order; the data rows are ordered
*newest-to-oldest* (buffer index order, most recent sample first),
followed by the all-zero rows of the untouched padding. -/
theorem csv_export_format (n C : Nat) (vs : List (List ℚ))
    (hn : 1 ≤ n) (h1 : ∀ v ∈ vs, v.length = n) (h2 : vs.length ≤ C) :
    on_export_csv (updateRun (initState n C) vs) =
      (exportHeaderLine n,
        vs.reverse ++ List.replicate (C - vs.length) (List.replicate n 0)) := by
  unfold on_export_csv
  obtain ⟨_, hns, _, _, _, _⟩ := updateRun_init_invariant n C vs h1
  rw [hns, updateRun_sampleBuffers n C vs h1 h2, npTranspose_pushed n C vs hn h1 h2]

/-- Witness for amended C2: the concrete two-sample session of the
counterexample, with its header and newest-first rows. -/
theorem csv_export_format_witness :
    on_export_csv (updateRun (initState 1 3) [[(1 : ℚ)], [2]]) =
      (exportHeaderLine 1,
        ([[(1 : ℚ)], [2]] : List (List ℚ)).reverse ++
          List.replicate (3 - ([[(1 : ℚ)], [2]] : List (List ℚ)).length)
            (List.replicate 1 0)) :=
  csv_export_format 1 3 [[1], [2]] (by decide) (by decide) (by decide)

/-- `foldl min` starting at `x` lands on one of the candidates. -/
theorem foldl_min_mem : ∀ (xs : List ℚ) (x : ℚ), xs.foldl min x ∈ x :: xs := by
  intro xs
  induction xs with
  | nil => intro x; simp
  | cons y ys ih =>
    intro x
    have h := ih (min x y)
    simp only [List.foldl_cons]
    rcases List.mem_cons.mp h with h1 | h1
    · rcases min_choice x y with hc | hc
      · rw [h1, hc]
        exact List.mem_cons_self _ _
      · rw [h1, hc]
        simp
    · simp [h1]

/-- `foldl min` is a lower bound of the start value and every element. -/
theorem foldl_min_le : ∀ (xs : List ℚ) (x : ℚ), ∀ y ∈ x :: xs, xs.foldl min x ≤ y := by
  intro xs
  induction xs with
  | nil =>
    intro x y hy
    simp at hy
    simp [hy]
  | cons z zs ih =>
    intro x y hy
    simp only [List.foldl_cons]
    rcases List.mem_cons.mp hy with h1 | hy2
    · rw [h1]
      exact le_trans (ih (min x z) _ (List.mem_cons_self _ _)) (min_le_left _ _)
    · rcases List.mem_cons.mp hy2 with h2 | hy3
      · rw [h2]
        exact le_trans (ih (min x z) _ (List.mem_cons_self _ _)) (min_le_right _ _)
      · exact ih (min x z) _ (List.mem_cons_of_mem _ hy3)

/-- `foldl max` starting at `x` lands on one of the candidates. -/
theorem foldl_max_mem : ∀ (xs : List ℚ) (x : ℚ), xs.foldl max x ∈ x :: xs := by
  intro xs
  induction xs with
  | nil => intro x; simp
  | cons y ys ih =>
    intro x
    have h := ih (max x y)
    simp only [List.foldl_cons]
    rcases List.mem_cons.mp h with h1 | h1
    · rcases max_choice x y with hc | hc
      · rw [h1, hc]
        exact List.mem_cons_self _ _
      · rw [h1, hc]
        simp
    · simp [h1]

/-- `foldl max` is an upper bound of the start value and every element. -/
theorem le_foldl_max : ∀ (xs : List ℚ) (x : ℚ), ∀ y ∈ x :: xs, y ≤ xs.foldl max x := by
  intro xs
  induction xs with
  | nil =>
    intro x y hy
    simp at hy
    simp [hy]
  | cons z zs ih =>
    intro x y hy
    simp only [List.foldl_cons]
    rcases List.mem_cons.mp hy with h1 | hy2
    · rw [h1]
      exact le_trans (le_max_left _ _) (ih (max x z) _ (List.mem_cons_self _ _))
    · rcases List.mem_cons.mp hy2 with h2 | hy3
      · rw [h2]
        exact le_trans (le_max_right _ _) (ih (max x z) _ (List.mem_cons_self _ _))
      · exact ih (max x z) _ (List.mem_cons_of_mem _ hy3)

/-- The `valid_data` selection is never empty when the buffer is not. -/
theorem validData_ne_nil (yData : List ℚ) (hne : yData ≠ []) :
    validData yData ≠ [] := by
  unfold validData
  split_ifs with h
  · intro hfil
    obtain ⟨x, hx, hxne⟩ := List.any_eq_true.mp h
    have : x ∈ yData.filter (fun x => decide (x ≠ 0)) :=
      List.mem_filter.mpr ⟨hx, hxne⟩
    rw [hfil] at this
    cases this
  · exact hne

/-- **C6.** For every non-empty channel buffer, `apply_autoscale`
produces bounds `[mn - pad, mx + pad]` with
`pad = 0.1 * (mx - mn)` when `mx - mn > 0` and `pad = 0.5` otherwise,
where `mn`/`mx` are the minimum and maximum of the buffer entries
excluding exact zeros whenever some entry is non-zero (second conjunct:
they are non-zero members bounding all non-zero entries), and the
minimum and maximum of the raw all-zero buffer — both 0 — otherwise
(third conjunct). -/
theorem autoscale_bounds_spec (yData : List ℚ) (hne : yData ≠ []) :
    ∃ mn mx,
      applyAutoscaleBounds yData =
          some (mn - (if mx - mn > 0 then (mx - mn) * (1 / 10) else 1 / 2),
            mx + (if mx - mn > 0 then (mx - mn) * (1 / 10) else 1 / 2)) ∧
        ((∃ x ∈ yData, x ≠ 0) →
          mn ∈ yData ∧ mn ≠ 0 ∧ mx ∈ yData ∧ mx ≠ 0 ∧
            ∀ x ∈ yData, x ≠ 0 → mn ≤ x ∧ x ≤ mx) ∧
        ((∀ x ∈ yData, x = 0) → mn = 0 ∧ mx = 0) := by
  rcases hv : validData yData with _ | ⟨a, t⟩
  · exact absurd hv (validData_ne_nil yData hne)
  · refine ⟨npMin (a :: t), npMax (a :: t), ?_, ?_, ?_⟩
    · simp [applyAutoscaleBounds, hv]
    · rintro ⟨x, hx, hxne⟩
      have hany : yData.any (fun x => decide (x ≠ 0)) = true :=
        List.any_eq_true.mpr ⟨x, hx, by simpa using hxne⟩
      have hfil : yData.filter (fun x => decide (x ≠ 0)) = a :: t := by
        have h2 := hv
        unfold validData at h2
        rw [hany, if_pos rfl] at h2
        exact h2
      have hmnfil : npMin (a :: t) ∈ yData.filter (fun x => decide (x ≠ 0)) := by
        rw [hfil]
        exact foldl_min_mem t a
      have hmxfil : npMax (a :: t) ∈ yData.filter (fun x => decide (x ≠ 0)) := by
        rw [hfil]
        exact foldl_max_mem t a
      obtain ⟨hmn1, hmn2⟩ := List.mem_filter.mp hmnfil
      obtain ⟨hmx1, hmx2⟩ := List.mem_filter.mp hmxfil
      refine ⟨hmn1, by simpa using hmn2, hmx1, by simpa using hmx2, ?_⟩
      intro z hz hzne
      have hzfil : z ∈ a :: t := by
        rw [← hfil]
        exact List.mem_filter.mpr ⟨hz, by simpa using hzne⟩
      exact ⟨foldl_min_le t a z hzfil, le_foldl_max t a z hzfil⟩
    · intro hall
      have hany : yData.any (fun x => decide (x ≠ 0)) = false := by
        rw [List.any_eq_false]
        intro x hx
        simpa using hall x hx
      have hyv : yData = a :: t := by
        have h2 := hv
        unfold validData at h2
        rw [hany, if_neg (by simp)] at h2
        exact h2
      constructor
      · have hm := foldl_min_mem t a
        rw [← hyv] at hm
        exact hall _ hm
      · have hm := foldl_max_mem t a
        rw [← hyv] at hm
        exact hall _ hm

/-- Witness for C6: the buffer `[3, 0, 5]` (non-empty, with non-zero
entries) admits the described bounds. -/
theorem autoscale_bounds_spec_witness :
    ∃ mn mx,
      applyAutoscaleBounds [(3 : ℚ), 0, 5] =
          some (mn - (if mx - mn > 0 then (mx - mn) * (1 / 10) else 1 / 2),
            mx + (if mx - mn > 0 then (mx - mn) * (1 / 10) else 1 / 2)) ∧
        ((∃ x ∈ [(3 : ℚ), 0, 5], x ≠ 0) →
          mn ∈ [(3 : ℚ), 0, 5] ∧ mn ≠ 0 ∧ mx ∈ [(3 : ℚ), 0, 5] ∧ mx ≠ 0 ∧
            ∀ x ∈ [(3 : ℚ), 0, 5], x ≠ 0 → mn ≤ x ∧ x ≤ mx) ∧
        ((∀ x ∈ [(3 : ℚ), 0, 5], x = 0) → mn = 0 ∧ mx = 0) :=
  autoscale_bounds_spec [3, 0, 5] (by decide)

/-- `frameStep` on a newline-terminated-empty buffer. -/
theorem frameStep_cons_newline (rest : List Char) :
    frameStep ('\n' :: rest) = ([] :: (frameStep rest).1, (frameStep rest).2) := by
  simp [frameStep]

/-- `frameStep` on a buffer starting with an ordinary character. -/
theorem frameStep_cons_of_ne (c : Char) (rest : List Char) (hc : c ≠ '\n') :
    frameStep (c :: rest) =
      (match frameStep rest with
        | ([], r) => ([], c :: r)
        | (l :: ls, r) => ((c :: l) :: ls, r)) := by
  simp [frameStep, hc]

/-- The retained buffer never contains a newline: the drain loop runs
until none is left. -/
theorem frameStep_newline_not_mem (s : List Char) : '\n' ∉ (frameStep s).2 := by
  induction s with
  | nil => simp [frameStep]
  | cons c rest ih =>
    by_cases hc : c = '\n'
    · rw [hc, frameStep_cons_newline]
      exact ih
    · rw [frameStep_cons_of_ne c rest hc]
      rcases hfr : frameStep rest with ⟨ls, r⟩
      have ihr : '\n' ∉ r := by
        rw [hfr] at ih
        exact ih
      cases ls with
      | nil =>
        intro hmem
        rcases List.mem_cons.mp hmem with h1 | h1
        · exact hc h1.symm
        · exact ihr h1
      | cons l ls2 => exact ihr

/-- A buffer with no newline has no complete line: everything is
retained. -/
theorem frameStep_no_newline (s : List Char) (h : '\n' ∉ s) :
    frameStep s = ([], s) := by
  induction s with
  | nil => simp [frameStep]
  | cons c rest ih =>
    have hc : c ≠ '\n' := fun hcc => h (by simp [hcc])
    have hrest : '\n' ∉ rest := fun hm => h (by simp [hm])
    rw [frameStep_cons_of_ne c rest hc, ih hrest]

/-- Framing splits over append: frame the first part, then frame its
leftover glued to the second part. -/
theorem frameStep_append (a b : List Char) :
    frameStep (a ++ b) =
      ((frameStep a).1 ++ (frameStep ((frameStep a).2 ++ b)).1,
        (frameStep ((frameStep a).2 ++ b)).2) := by
  induction a with
  | nil => simp [frameStep]
  | cons c a ih =>
    by_cases hc : c = '\n'
    · subst hc
      rw [List.cons_append, frameStep_cons_newline, frameStep_cons_newline]
      simp [ih]
    · rw [List.cons_append, frameStep_cons_of_ne c (a ++ b) hc,
        frameStep_cons_of_ne c a hc, ih]
      rcases hfa : frameStep a with ⟨ls, r⟩
      cases ls with
      | nil =>
        rcases hX : frameStep (r ++ b) with ⟨xs, xr⟩
        cases xs with
        | nil =>
          simp [frameStep_cons_of_ne c (r ++ b) hc, hX]
        | cons x xs2 =>
          simp [frameStep_cons_of_ne c (r ++ b) hc, hX]
      | cons l ls2 =>
        simp

/-- Folding `feedChunk` from any drained state (no newline retained)
equals framing the retained text glued to all remaining input at once. -/
theorem feedChunks_go (chunks : List (List Char)) :
    ∀ (ls : List (List Char)) (r : List Char), '\n' ∉ r →
      List.foldl feedChunk (ls, r) chunks =
        (ls ++ (frameStep (r ++ chunks.flatten)).1, (frameStep (r ++ chunks.flatten)).2) := by
  induction chunks with
  | nil =>
    intro ls r hr
    simp [frameStep_no_newline r hr]
  | cons ch rest ih =>
    intro ls r hr
    simp only [List.foldl_cons, List.flatten_cons]
    have hstep : feedChunk (ls, r) ch =
        (ls ++ (frameStep (r ++ ch)).1, (frameStep (r ++ ch)).2) := rfl
    rw [hstep, ih _ _ (frameStep_newline_not_mem (r ++ ch))]
    rw [← List.append_assoc r ch rest.flatten, frameStep_append (r ++ ch) rest.flatten]
    simp

/-- **C5 (amended).** At the level of the decoded text — equivalently,
for every byte chunking whose boundaries fall between UTF-8 characters —
the stdin line framer is chunk-boundary independent: feeding any list of
chunks incrementally emits exactly the lines (and hence exactly the
parsed records, for any delimiter state) of feeding their concatenation
at once, with the same retained leftover.  (The byte-level claim fails
only when a chunk boundary splits a multi-byte UTF-8 character, because
each batch is decoded separately with `errors="ignore"`; see the
counterexample.) -/
theorem stdin_framer_chunk_independent :
    (∀ chunks : List (List Char), feedChunks chunks = frameStep chunks.flatten) ∧
      ∀ (delim : Option Char) (chunks : List (List Char)),
        stdinRecords delim (feedChunks chunks).1 =
          stdinRecords delim (frameStep chunks.flatten).1 := by
  have hmain : ∀ chunks : List (List Char), feedChunks chunks = frameStep chunks.flatten := by
    intro chunks
    unfold feedChunks
    rw [feedChunks_go chunks [] [] (by simp)]
    simp
  exact ⟨hmain, fun delim chunks => by rw [hmain]⟩

/-- **C5 counterexample.** The bytes of `"é1\n"` (`C3 A9 31 0A`) fed as
one batch emit the line `"é1"` (whose record parse fails), but split
inside the two-byte character `é` they emit the line `"1"` (which parses
as the sample `[1]`): a chunk boundary alters the emitted lines and the
resulting records. -/
theorem stdin_framer_byte_boundary_cex :
    ([0xC3] : List Nat) ++ [0xA9, 0x31, 0x0A] = [0xC3, 0xA9, 0x31, 0x0A] ∧
      (feedByteBatches [[0xC3], [0xA9, 0x31, 0x0A]]).1 ≠
        (feedByteBatches [[0xC3, 0xA9, 0x31, 0x0A]]).1 ∧
      (feedByteBatches [[0xC3], [0xA9, 0x31, 0x0A]]).1 = [['1']] ∧
      (feedByteBatches [[0xC3, 0xA9, 0x31, 0x0A]]).1 = [[Char.ofNat 0xE9, '1']] ∧
      stdinRecords none (feedByteBatches [[0xC3], [0xA9, 0x31, 0x0A]]).1 = [[1]] ∧
      stdinRecords none (feedByteBatches [[0xC3, 0xA9, 0x31, 0x0A]]).1 = [] := by
  decide

end PySplot
